import Mathlib

namespace Epcp

/-! ### Decimal strings: models of strconv.Atoi, strconv.ParseFloat (decimal
subset) and the %d / decimal rendering used by fmt.Sprintf. -/

/-- Fuel-driven digit extraction; any fuel above the number itself is
enough, and structural recursion on the fuel keeps the function reducible
for kernel evaluation. -/
def natDigitsGo : Nat → Nat → List Char
  | 0, _ => []
  | fuel + 1, n =>
    if n < 10 then [Char.ofNat (48 + n)]
    else natDigitsGo fuel (n / 10) ++ [Char.ofNat (48 + n % 10)]

/-- The digits of a natural number, most significant first (the decimal
rendering used by fmt.Sprintf with the %d verb). -/
def natDigits (n : Nat) : List Char := natDigitsGo (n + 1) n

/-- Decimal rendering of a natural number as a string. -/
def natToString (n : Nat) : String := String.mk (natDigits n)

/-- Decimal rendering of an Int, as fmt.Sprintf %d prints a Go int. -/
def intToString (m : Int) : String :=
  if m < 0 then String.mk ('-' :: natDigits m.natAbs) else natToString m.toNat

/-- Reads a digit string (most significant first) back as a natural number. -/
def digitsVal (cs : List Char) : Nat :=
  cs.foldl (fun acc d => 10 * acc + (d.toNat - 48)) 0

/-- Parse a nonempty all-digit character list; none otherwise. -/
def parseNatDigits (cs : List Char) : Option Nat :=
  if cs.isEmpty then none
  else if cs.all Char.isDigit then some (digitsVal cs) else none

/-- Model of strconv.Atoi on the character list of the string: an optional
sign followed by at least one decimal digit. Int64 overflow of Atoi is not
modelled (the values in scope are tiny). -/
def atoiList : List Char → Option Int
  | [] => none
  | c :: cs =>
    if c = '-' then (parseNatDigits cs).map (fun n => -(n : Int))
    else if c = '+' then (parseNatDigits cs).map (fun n => (n : Int))
    else (parseNatDigits (c :: cs)).map (fun n => (n : Int))

/-- Model of strconv.Atoi (src/main.go line 330). -/
def atoi (s : String) : Option Int := atoiList s.data

/-! ### Frequency discovery and the trend-based scaler
(src/main.go: getAvailableCPUFrequencies, readFile, scaleCPUFrequency). -/

/-- Model of Go strings.Split with a one-character separator: splits at every
occurrence of the separator, keeping empty fields. -/
def splitOnChar (sep : Char) : List Char → List (List Char)
  | [] => [[]]
  | c :: cs =>
    let r := splitOnChar sep cs
    if c = sep then [] :: r
    else match r with
      | t :: ts => (c :: t) :: ts
      | [] => [[c]]

/-- getAvailableCPUFrequencies (src/main.go lines 384-390): readFile yields
the file content, or the empty string when the path is missing or unreadable;
an empty content gives nil, otherwise the content is split on single spaces.
The content (with the empty string standing for the unreadable case) is the
explicit argument here. -/
def getAvailableCPUFrequencies (content : String) : List String :=
  if content = "" then [] else (splitOnChar ' ' content.data).map String.mk

/-- The min/max scan over the reported frequency strings
(src/main.go lines 328-338): entries that fail strconv.Atoi are skipped,
minF starts at the sentinel 10000000 and maxF at 0. -/
def freqScan (frequencies : List String) : Int × Int :=
  frequencies.foldl
    (fun mm frequency =>
      match atoi frequency with
      | some f =>
        let maxF := if f > mm.2 then f else mm.2
        let minF := if f < mm.1 then f else mm.1
        (minF, maxF)
      | none => mm)
    (10000000, 0)

/-- The adjacent-pair comparison loop of scaleCPUFrequency (src/main.go lines
318-325): for i from 0 to len-2, count a decrease when prices[i+1] <=
prices[i] and an increase otherwise. Go float32 prices are modelled as exact
rationals. Returns (dec, inc). -/
def countTrend : List ℚ → Nat × Nat
  | p0 :: p1 :: rest =>
    let r := countTrend (p1 :: rest)
    if p1 ≤ p0 then (r.1 + 1, r.2) else (r.1, r.2 + 1)
  | _ => (0, 0)

/-- The frequency scaleCPUFrequency chooses to write (src/main.go lines
339-352): the scanned minimum when dec < inc, the scanned maximum otherwise. -/
def chosenFrequency (prices : List ℚ) (capContent : String) : Int :=
  let t := countTrend prices
  let mm := freqScan (getAvailableCPUFrequencies capContent)
  if t.1 < t.2 then mm.1 else mm.2

/-- One attempted write of a frequency string to a sysfs control path, with
the outcome writeFile reported for it. -/
structure WriteAttempt where
  path : String
  value : String
  ok : Bool
deriving DecidableEq

/-- The scaling_max_freq control path for core i, as fmt.Sprintf renders it
(src/main.go lines 342 and 352). -/
def scalingMaxFreqPathOf (i : Nat) : String :=
  "/sys/devices/system/cpu/cpu" ++ natToString i ++ "/cpufreq/scaling_max_freq"

/-- scaleCPUFrequency (src/main.go lines 316-360). The capability-file
content, the core count (runtime.NumCPU) and the per-core outcome of
writeFile are explicit; the returned list records every write the loop
attempts, in order. Both branches run the same loop over cores
0..numCPU-2, differing only in the value written. -/
def scaleCPUFrequency (prices : List ℚ) (capContent : String) (numCPU : Nat)
    (writeOk : Nat → Bool) : List WriteAttempt :=
  let target := chosenFrequency prices capContent
  (List.range (numCPU - 1)).map fun i =>
    { path := scalingMaxFreqPathOf i
      value := intToString target
      ok := writeOk i }

/-- The integer entries of the reported frequency list that parse
(the set scaleCPUFrequency actually scans). -/
def parsedFrequencies (capContent : String) : List Int :=
  (getAvailableCPUFrequencies capContent).filterMap atoi

/-! ### Time window resolution (src/main.go: getTimeRange lines 257-272,
getEnvironmentVariables lines 392-403). Instants are nanoseconds since the
Unix epoch; a zone is its offset function (seconds east of UTC at each
instant), Europe/Budapest in the program. -/

/-- Wrap an integer into the signed 64-bit range, as Go int64 arithmetic
overflows (time.Duration is an int64 of nanoseconds). -/
def wrap64 (x : Int) : Int := (x + 2 ^ 63) % 2 ^ 64 - 2 ^ 63

/-- time.Hour: the nanoseconds of one hour. -/
def nsPerHour : Int := 3600000000000

/-- The HOURS handling of getEnvironmentVariables (src/main.go lines
394-403): an absent variable (none) or one time.ParseDuration rejects
(some none) leaves the literal -3, which as a time.Duration is minus three
NANOseconds; a parsable one (some (some d)) yields its value d in
nanoseconds. The parse itself is the oracle argument. -/
def resolveHoursInThePast : Option (Option Int) → Int
  | none => -3
  | some none => -3
  | some (some d) => d

/-- The zone-local second count of an instant. -/
def localSeconds (off : Int → Int) (t : Int) : Int :=
  t.fdiv 1000000000 + off t

/-- time.Time.Hour: hour of day 0-23 in the zone. -/
def hourOfDay (off : Int → Int) (t : Int) : Int :=
  ((localSeconds off t).emod 86400).fdiv 3600

/-- Whole days between the zone-local instant and 1970-01-01. -/
def daysFromEpoch (off : Int → Int) (t : Int) : Int :=
  (localSeconds off t).fdiv 86400

/-- Proleptic Gregorian (year, month, day) from days since 1970-01-01,
modelling the calendar Go time.Time.Date computes. -/
def civilFromDays (z0 : Int) : Int × Int × Int :=
  let z := z0 + 719468
  let era := z.fdiv 146097
  let doe := z - era * 146097
  let yoe := (doe - doe.fdiv 1460 + doe.fdiv 36524 - doe.fdiv 146096).fdiv 365
  let y := yoe + era * 400
  let doy := doe - (365 * yoe + yoe.fdiv 4 - yoe.fdiv 100)
  let mp := (5 * doy + 2).fdiv 153
  let d := doy - (153 * mp + 2).fdiv 5 + 1
  let m := mp + (if mp < 10 then 3 else -9)
  (y + (if m ≤ 2 then 1 else 0), m, d)

/-- Left-pad the decimal digits with zeros to the given width (the %04d and
%02d verbs of src/main.go lines 269-270; the components in scope are
nonnegative). -/
def padNat (width n : Nat) : List Char :=
  List.replicate (width - (natDigits n).length) '0' ++ natDigits n

/-- The YYYY-MM-DD rendering of src/main.go lines 269-270. -/
def formatDate : Int × Int × Int → String
  | (y, m, d) =>
    String.mk (padNat 4 y.toNat ++ '-' :: (padNat 2 m.toNat ++ '-' :: padNat 2 d.toNat))

/-- The Times struct of src/main.go lines 29-34. -/
structure Times where
  startDate : String
  endDate : String
  startHour : String
  endHour : String
deriving DecidableEq

/-- getTimeRange (src/main.go lines 257-272): before is
now.Add(hoursInThePast * time.Hour) — a product of two int64 nanosecond
durations, wrapped as Go computes it — and the fields are the strconv.Itoa
hours and formatted dates of before and now. -/
def getTimeRange (now : Int) (off : Int → Int) (hoursInThePast : Int) : Times :=
  let before := now + wrap64 (hoursInThePast * nsPerHour)
  { startDate := formatDate (civilFromDays (daysFromEpoch off before))
    endDate := formatDate (civilFromDays (daysFromEpoch off now))
    startHour := natToString (hourOfDay off before).toNat
    endHour := natToString (hourOfDay off now).toNat }

/-! ### The price fetch orchestrator (src/main.go: getElectrictyPrices
lines 274-314). A fetch (GetImPriceE followed by
extractPricesFromGetImPriceE) can fail at the HTTP level (a nil
*http.Response), fail while decoding the XML, or succeed with a price
list; the network enters as an oracle from the call's four arguments. The
model also returns the trace of calls issued, in order. -/

/-- The four string arguments of one GetImPriceE call. -/
structure FetchCall where
  sd : String
  ed : String
  sh : String
  eh : String
deriving DecidableEq

/-- What one fetch yields: httpFail models GetImPriceE returning nil,
decodeFail models extractPricesFromGetImPriceE returning an error (its
price slice is then empty), ok carries the extracted prices. -/
inductive FetchResult where
  | httpFail : FetchResult
  | decodeFail : FetchResult
  | ok : List ℚ → FetchResult
deriving DecidableEq

/-- The second-day leg of the two-day branch (src/main.go lines 289-299):
the second GetImPriceE call and the concatenation with the first day's
prices. -/
def secondLeg (times : Times) (fetch : FetchCall → FetchResult)
    (c1 : FetchCall) (prices1 : List ℚ) : List FetchCall × List ℚ :=
  match fetch ⟨times.endDate, times.endDate, "0", times.endHour⟩ with
  | FetchResult.httpFail => ([c1, ⟨times.endDate, times.endDate, "0", times.endHour⟩], [])
  | FetchResult.decodeFail => ([c1, ⟨times.endDate, times.endDate, "0", times.endHour⟩], [])
  | FetchResult.ok prices2 =>
    ([c1, ⟨times.endDate, times.endDate, "0", times.endHour⟩], prices1 ++ prices2)

/-- getElectrictyPrices (src/main.go lines 274-314), returning the calls
issued together with the price series. In the two-day branch an HTTP
failure of the first call aborts at once; a decode failure of the first
call only logs and continues with an empty first-day slice. -/
def getElectrictyPrices (times : Times) (fetch : FetchCall → FetchResult) :
    List FetchCall × List ℚ :=
  if times.startDate ≠ times.endDate then
    match fetch ⟨times.startDate, times.startDate, times.startHour, "24"⟩ with
    | FetchResult.httpFail =>
      ([⟨times.startDate, times.startDate, times.startHour, "24"⟩], [])
    | FetchResult.decodeFail =>
      secondLeg times fetch ⟨times.startDate, times.startDate, times.startHour, "24"⟩ []
    | FetchResult.ok prices1 =>
      secondLeg times fetch ⟨times.startDate, times.startDate, times.startHour, "24"⟩ prices1
  else
    match fetch ⟨times.startDate, times.endDate, times.startHour, times.endHour⟩ with
    | FetchResult.httpFail =>
      ([⟨times.startDate, times.endDate, times.startHour, times.endHour⟩], [])
    | FetchResult.decodeFail =>
      ([⟨times.startDate, times.endDate, times.startHour, times.endHour⟩], [])
    | FetchResult.ok prices =>
      ([⟨times.startDate, times.endDate, times.startHour, times.endHour⟩], prices)

/-! ### The market data client (src/main.go: sendRequest lines 103-122,
GetImPriceE lines 231-254, ElectricityIntraDayTrade lines 78-96,
extractPricesFromGetImPriceE lines 153-167). XML documents are modelled as
trees; the Go xml decoder's behaviour on this fixed schema is embedded
directly: local-name matching, zero values for missing elements, fail-fast
typed coercion for present ones. -/

/-- Parse an unsigned decimal literal, digits with an optional nonempty
fractional part, as an exact rational: the decimal subset of
strconv.ParseFloat that the schema's price/volume texts use. Go stores the
result in a float32; the model keeps the exact value, so exactness is
stated for values a float32 carries. -/
def parseUnsignedDecimal (cs : List Char) : Option ℚ :=
  if (cs.takeWhile Char.isDigit).isEmpty then none
  else
    match cs.dropWhile Char.isDigit with
    | [] => some ((digitsVal (cs.takeWhile Char.isDigit) : ℚ))
    | '.' :: frac =>
      if frac.isEmpty then none
      else if frac.all Char.isDigit then
        some ((digitsVal (cs.takeWhile Char.isDigit) : ℚ) +
          (digitsVal frac : ℚ) / (10 : ℚ) ^ frac.length)
      else none
    | _ => none

/-- Signed decimal parse on a character list. -/
def parseDecimalChars : List Char → Option ℚ
  | [] => none
  | c :: cs =>
    if c = '-' then (parseUnsignedDecimal cs).map (fun q => -q)
    else if c = '+' then parseUnsignedDecimal cs
    else parseUnsignedDecimal (c :: cs)

/-- The float coercion of the decoder, on a string. -/
def parseDecimal (s : String) : Option ℚ := parseDecimalChars s.data

/-- Render an amount of hundredths as a signed decimal with two fractional
digits (a canonical text for a two-decimal price). -/
def centiChars (m : Int) : List Char :=
  (if m < 0 then ['-'] else []) ++ natDigits (m.natAbs / 100) ++
    '.' :: padNat 2 (m.natAbs % 100)

/-- String form of centiChars. -/
def renderCenti (m : Int) : String := String.mk (centiChars m)

/-- A minimal XML tree: an element with a local name and children, or
character data. Namespaces are elided; the decoder binds by local name as
the Go struct tags of ElectricityIntraDayTrade do. -/
inductive Xml where
  | elem : String → List Xml → Xml
  | text : String → Xml

/-- The character data directly among an element's children, concatenated. -/
def textOf (children : List Xml) : String :=
  String.mk (children.foldl
    (fun acc child =>
      match child with
      | Xml.text s => acc ++ s.data
      | Xml.elem _ _ => acc) [])

/-- The character data of a node. -/
def textContent : Xml → String
  | Xml.elem _ children => textOf children
  | Xml.text s => s

/-- The first child element with the given local name: how the decoder
binds a singular struct field. -/
def firstChild (name : String) : Xml → Option Xml
  | Xml.elem _ children =>
    children.find? (fun child =>
      match child with
      | Xml.elem n _ => n == name
      | Xml.text _ => false)
  | Xml.text _ => none

/-- Every child element with the given local name, in order: how the
decoder fills a slice field. -/
def childrenNamed (name : String) : Xml → List Xml
  | Xml.elem _ children =>
    children.filter (fun child =>
      match child with
      | Xml.elem n _ => n == name
      | Xml.text _ => false)
  | Xml.text _ => []

/-- One decoded Item of ElectricityIntraDayTrade (src/main.go lines 86-92):
Date string, Hour int, Price and Volume float32 (modelled exactly). -/
structure ImRecord where
  date : String
  hour : Int
  price : ℚ
  volume : ℚ
deriving DecidableEq

/-- Decode one Item element as encoding/xml fills the Item struct: a
missing field element leaves the zero value, a present one must coerce
(integer for Hour, float for Price and Volume), and any failed coercion
fails the record. -/
def decodeItem (x : Xml) : Option ImRecord := do
  let date := match firstChild "Date" x with
    | some e => textContent e
    | none => ""
  let hour ← match firstChild "Hour" x with
    | some e => atoi (textContent e)
    | none => some 0
  let price ← match firstChild "Price" x with
    | some e => parseDecimal (textContent e)
    | none => some 0
  let volume ← match firstChild "Volume" x with
    | some e => parseDecimal (textContent e)
    | none => some 0
  pure { date := date, hour := hour, price := price, volume := volume }

/-- Decode the Item list; a failing record fails the whole decode, as
xml.Decode aborts at the first coercion error (no per-record skip). -/
def decodeItems : List Xml → Option (List ImRecord)
  | [] => some []
  | x :: xs =>
    match decodeItem x, decodeItems xs with
    | some r, some rs => some (r :: rs)
    | _, _ => none

/-- xml.Decode into ElectricityIntraDayTrade followed by the field walk
result.Body.GetImPriceEResponse.Result.Item (src/main.go lines 78-96 and
line 161): the root element must be an Envelope, missing interior elements
leave zero values (an empty Item list), and every present Item must
decode. -/
def decodeImResponse (root : Xml) : Option (List ImRecord) :=
  match root with
  | Xml.text _ => none
  | Xml.elem name _ =>
    if name = "Envelope" then
      match ((firstChild "Body" root).bind
          (firstChild "GetImPriceEResponse")).bind (firstChild "Result") with
      | some result => decodeItems (childrenNamed "Item" result)
      | none => some []
    else none

/-- extractPricesFromGetImPriceE (src/main.go lines 153-167) on a response
body: a decode error returns the still-empty price slice and the error;
success returns the Price fields in record order and no error. -/
def extractPricesFromGetImPriceE (body : Xml) : List ℚ × Bool :=
  match decodeImResponse body with
  | none => ([], true)
  | some items => (items.map (fun r => r.price), false)

/-- The outcomes one HTTP exchange can have, as sendRequest observes them:
building the request can fail, dispatching it can fail at the transport
level, or a response arrives with a status line and a body. -/
inductive RequestOutcome where
  | buildErr : RequestOutcome
  | transportErr : RequestOutcome
  | response : String → Xml → RequestOutcome

/-- sendRequest (src/main.go lines 103-122): nil on a request-construction
error, on a transport error, and on any status other than exactly
"200 OK"; the response otherwise. -/
def sendRequest : RequestOutcome → Option Xml
  | RequestOutcome.buildErr => none
  | RequestOutcome.transportErr => none
  | RequestOutcome.response status body =>
    if status = "200 OK" then some body else none

/-- The fixed text of the GetImPriceE request template before StartDate
(src/main.go lines 233-240), with the leading whitespace the surrounding
strings.TrimSpace removes already dropped. -/
def imTplA : String :=
  "<?xml version=\"1.0\" encoding=\"UTF-8\" ?>\n    <soapenv:Envelope\n       xmlns:soapenv=\"http://schemas.xmlsoap.org/soap/envelope/\"\n       xmlns:pub=\"http://www.ote-cr.cz/schema/service/public\">\n\t\t<soapenv:Header/>\n        <soapenv:Body>\n            <pub:GetImPriceE>\n\t\t\t\t<pub:StartDate>"

/-- Template text between StartDate and EndDate. -/
def imTplB : String := "</pub:StartDate>\n\t\t\t\t<pub:EndDate>"

/-- Template text between EndDate and StartHour. -/
def imTplC : String := "</pub:EndDate>\n\t\t\t\t<pub:StartHour>"

/-- Template text between StartHour and EndHour. -/
def imTplD : String := "</pub:StartHour>\n\t\t\t\t<pub:EndHour>"

/-- Template text after EndHour (the trailing end is already trimmed). -/
def imTplE : String :=
  "</pub:EndHour>\n            </pub:GetImPriceE>\n        </soapenv:Body>\n    </soapenv:Envelope>"

/-- The GetImPriceE request payload (src/main.go lines 232-247): the fixed
SOAP template with the four arguments substituted; strings.TrimSpace only
touches the fixed ends, reflected in the trimmed imTplA and imTplE. -/
def getImPriceEPayload (startDate endDate startHour endHour : String) : String :=
  imTplA ++ startDate ++ imTplB ++ endDate ++ imTplC ++ startHour ++
    imTplD ++ endHour ++ imTplE

/-- A schema-conformant synthetic Item for the round trip: an integer hour
and exact two-decimal price and volume amounts (hundredths), the values the
schema's float32 fields carry exactly. -/
structure SynthItem where
  date : String
  hour : Int
  priceCenti : Int
  volumeCenti : Int

/-- The Item element a schema-conformant response carries for the synthetic
record. -/
def renderItem (s : SynthItem) : Xml :=
  Xml.elem "Item"
    [Xml.elem "Date" [Xml.text s.date],
     Xml.elem "Hour" [Xml.text (intToString s.hour)],
     Xml.elem "Price" [Xml.text (renderCenti s.priceCenti)],
     Xml.elem "Volume" [Xml.text (renderCenti s.volumeCenti)]]

/-- A full schema-conformant GetImPriceE response envelope. -/
def renderImResponse (items : List SynthItem) : Xml :=
  Xml.elem "Envelope"
    [Xml.elem "Body"
      [Xml.elem "GetImPriceEResponse"
        [Xml.elem "Result" (items.map renderItem)]]]

/-- The record the synthetic item denotes. -/
def synthRecord (s : SynthItem) : ImRecord :=
  { date := s.date, hour := s.hour,
    price := (s.priceCenti : ℚ) / 100, volume := (s.volumeCenti : ℚ) / 100 }

/-!
Shallow embedding of the epcp-simulator (src/main.go): an electricity-price
driven CPU-frequency scaler. Machine integers are modelled as Int with
explicit wrapping where int64 overflow matters; Go float32 prices are
modelled as exact rationals; fallible operations return Option. External
effects (the HTTP service, the sysfs control files, the clock) enter as
explicit parameters or oracles, and functions that perform writes return
the list of attempted writes instead.
-/

theorem natDigitsGo_succ (f n : Nat) :
    natDigitsGo (f + 1) n =
      if n < 10 then [Char.ofNat (48 + n)]
      else natDigitsGo f (n / 10) ++ [Char.ofNat (48 + n % 10)] := rfl

theorem natDigitsGo_irrel : ∀ (n f : Nat), n < f → natDigitsGo f n = natDigits n := by
  intro n
  induction n using Nat.strong_induction_on with
  | _ n ih =>
    intro f hf
    match f, hf with
    | f + 1, hf =>
      rw [natDigits, natDigitsGo_succ, natDigitsGo_succ]
      by_cases h : n < 10
      · rw [if_pos h, if_pos h]
      · rw [if_neg h, if_neg h]
        have h10 : n / 10 < n := Nat.div_lt_self (by omega) (by omega)
        rw [ih (n / 10) h10 f (by omega), ih (n / 10) h10 n (by omega)]

/-- The recursion natDigits satisfies, with the fuel hidden. -/
theorem natDigits_eq (n : Nat) :
    natDigits n =
      if n < 10 then [Char.ofNat (48 + n)]
      else natDigits (n / 10) ++ [Char.ofNat (48 + n % 10)] := by
  rw [natDigits, natDigitsGo_succ]
  by_cases h : n < 10
  · rw [if_pos h, if_pos h]
  · rw [if_neg h, if_neg h,
      natDigitsGo_irrel (n / 10) n (Nat.div_lt_self (by omega) (by omega))]

/-! Basic facts about the decimal digit characters and the round trip
between rendering and parsing. -/

theorem digitChar_toNat : ∀ d, d < 10 → (Char.ofNat (48 + d)).toNat = 48 + d := by
  decide

theorem digitChar_isDigit : ∀ d, d < 10 → (Char.ofNat (48 + d)).isDigit = true := by
  decide

theorem natDigits_ne_nil (n : Nat) : natDigits n ≠ [] := by
  rw [natDigits_eq]
  split <;> simp

theorem natDigits_all_isDigit (n : Nat) : natDigits n |>.all Char.isDigit := by
  induction n using Nat.strong_induction_on with
  | _ n ih =>
    rw [natDigits_eq]
    split
    · simp [digitChar_isDigit n (by omega)]
    · rename_i h
      simp only [List.all_append, Bool.and_eq_true]
      constructor
      · exact ih (n / 10) (Nat.div_lt_self (by omega) (by omega))
      · simp [digitChar_isDigit (n % 10) (Nat.mod_lt n (by omega))]

theorem digitsVal_append_singleton (cs : List Char) (c : Char) :
    digitsVal (cs ++ [c]) = 10 * digitsVal cs + (c.toNat - 48) := by
  simp [digitsVal, List.foldl_append]

theorem digitsVal_natDigits (n : Nat) : digitsVal (natDigits n) = n := by
  induction n using Nat.strong_induction_on with
  | _ n ih =>
    rw [natDigits_eq]
    split
    · rename_i h
      simp [digitsVal, digitChar_toNat n (by omega)]
    · rename_i h
      rw [digitsVal_append_singleton, ih (n / 10) (Nat.div_lt_self (by omega) (by omega)),
        digitChar_toNat (n % 10) (Nat.mod_lt n (by omega))]
      omega

theorem parseNatDigits_natDigits (n : Nat) :
    parseNatDigits (natDigits n) = some n := by
  rw [parseNatDigits, if_neg, if_pos (natDigits_all_isDigit n), digitsVal_natDigits]
  simp [List.isEmpty_iff, natDigits_ne_nil]

theorem natDigits_head_not_sign (n : Nat) (c : Char) (cs : List Char)
    (h : natDigits n = c :: cs) : c ≠ '-' ∧ c ≠ '+' := by
  have hall := natDigits_all_isDigit n
  rw [h] at hall
  simp only [List.all_cons, Bool.and_eq_true] at hall
  have hc := hall.1
  constructor <;> rintro rfl <;> simp [Char.isDigit] at hc

theorem atoiList_natDigits (n : Nat) : atoiList (natDigits n) = some (n : Int) := by
  rcases he : natDigits n with _ | ⟨c, cs⟩
  · exact absurd he (natDigits_ne_nil n)
  · have hs := natDigits_head_not_sign n c cs he
    rw [atoiList, if_neg hs.1, if_neg hs.2, ← he, parseNatDigits_natDigits]
    rfl

theorem atoi_natToString (n : Nat) : atoi (natToString n) = some (n : Int) := by
  simpa [atoi, natToString] using atoiList_natDigits n

theorem atoi_intToString (m : Int) : atoi (intToString m) = some m := by
  by_cases h : m < 0
  · rw [intToString, if_pos h]
    show atoiList ('-' :: natDigits m.natAbs) = some m
    rw [atoiList, if_pos rfl, parseNatDigits_natDigits]
    show some (-((m.natAbs : Nat) : Int)) = some m
    exact congrArg some (by omega)
  · rw [intToString, if_neg h, atoi_natToString]
    simp [Int.toNat_of_nonneg (not_lt.mp h)]

theorem freqScan_eq_fold (fs : List String) :
    freqScan fs =
      ((fs.filterMap atoi).foldl min 10000000,
       (fs.filterMap atoi).foldl max 0) := by
  suffices h : ∀ (l : List String) (a b : Int),
      l.foldl
        (fun mm frequency =>
          match atoi frequency with
          | some f =>
            let maxF := if f > mm.2 then f else mm.2
            let minF := if f < mm.1 then f else mm.1
            (minF, maxF)
          | none => mm)
        (a, b) =
      ((l.filterMap atoi).foldl min a, (l.filterMap atoi).foldl max b) by
    exact h fs 10000000 0
  intro l
  induction l with
  | nil => intro a b; rfl
  | cons s t ih =>
    intro a b
    rcases hs : atoi s with _ | f
    · simp [List.filterMap_cons, hs, ih]
    · simp only [List.foldl_cons, List.filterMap_cons, hs]
      rw [ih]
      congr 1
      · congr 1
        rcases lt_or_le f a with h | h
        · simp [min_def, h.le, h]
        · simp [min_def, h, not_lt.mpr h]
      · congr 1
        rcases lt_or_le b f with h | h
        · simp [max_def, h.le, h]
        · simp [max_def, not_lt.mpr h, h]

theorem foldl_min_le_init (l : List Int) (a : Int) : l.foldl min a ≤ a := by
  induction l generalizing a with
  | nil => exact le_refl a
  | cons x t ih => exact le_trans (ih (min a x)) (min_le_left a x)

theorem foldl_min_le_mem (l : List Int) (a x : Int) (hx : x ∈ l) :
    l.foldl min a ≤ x := by
  induction l generalizing a with
  | nil => cases hx
  | cons y t ih =>
    rcases List.mem_cons.mp hx with rfl | hx
    · exact le_trans (foldl_min_le_init t (min a x)) (min_le_right a x)
    · exact ih (min a y) hx

theorem foldl_min_mem (l : List Int) (a : Int) :
    l.foldl min a = a ∨ l.foldl min a ∈ l := by
  induction l generalizing a with
  | nil => exact Or.inl rfl
  | cons x t ih =>
    rcases ih (min a x) with h | h
    · rcases min_cases a x with ⟨he, _⟩ | ⟨he, _⟩
      · exact Or.inl (h.trans he)
      · exact Or.inr (List.mem_cons.mpr (Or.inl (h.trans he)))
    · exact Or.inr (List.mem_cons.mpr (Or.inr h))

theorem foldl_max_init_le (l : List Int) (b : Int) : b ≤ l.foldl max b := by
  induction l generalizing b with
  | nil => exact le_refl b
  | cons x t ih => exact le_trans (le_max_left b x) (ih (max b x))

theorem foldl_max_mem_le (l : List Int) (b x : Int) (hx : x ∈ l) :
    x ≤ l.foldl max b := by
  induction l generalizing b with
  | nil => cases hx
  | cons y t ih =>
    rcases List.mem_cons.mp hx with rfl | hx
    · exact le_trans (le_max_right b x) (foldl_max_init_le t (max b x))
    · exact ih (max b y) hx

theorem foldl_max_mem (l : List Int) (b : Int) :
    l.foldl max b = b ∨ l.foldl max b ∈ l := by
  induction l generalizing b with
  | nil => exact Or.inl rfl
  | cons x t ih =>
    rcases ih (max b x) with h | h
    · rcases max_cases b x with ⟨he, _⟩ | ⟨he, _⟩
      · exact Or.inl (h.trans he)
      · exact Or.inr (List.mem_cons.mpr (Or.inl (h.trans he)))
    · exact Or.inr (List.mem_cons.mpr (Or.inr h))

/-- The loop of scaleCPUFrequency counts exactly the adjacent pairs: dec is
the number of pairs whose later value is at most the earlier one, inc the
number of pairs whose later value exceeds the earlier one. -/
theorem countTrend_eq_countP (prices : List ℚ) :
    countTrend prices =
      ((prices.zip prices.tail).countP (fun pr => decide (pr.2 ≤ pr.1)),
       (prices.zip prices.tail).countP (fun pr => decide (pr.1 < pr.2))) := by
  induction prices with
  | nil => rfl
  | cons p0 t ih =>
    cases t with
    | nil => rfl
    | cons p1 rest =>
      rw [countTrend, ih]
      simp only [List.tail_cons, List.zip_cons_cons, List.countP_cons]
      by_cases h : p1 ≤ p0
      · simp [h, not_lt.mpr h]
      · simp [h, not_le.mp h]

theorem natDigits_injective (n m : Nat) (h : natDigits n = natDigits m) : n = m := by
  have := digitsVal_natDigits n
  rw [h, digitsVal_natDigits] at this
  exact this.symm

theorem scalingMaxFreqPathOf_injective (i j : Nat)
    (h : scalingMaxFreqPathOf i = scalingMaxFreqPathOf j) : i = j := by
  apply natDigits_injective
  have hd := congrArg String.data h
  simp only [scalingMaxFreqPathOf, natToString, String.data_append] at hd
  rw [List.append_assoc, List.append_assoc] at hd
  exact List.append_cancel_right (List.append_cancel_left hd)

theorem intToString_of_nonneg (m : Int) (h : 0 ≤ m) :
    intToString m = natToString m.toNat := by
  rw [intToString, if_neg (not_lt.mpr h)]

/-- C1. The trend classifier counts, over each adjacent pair, a decrease
when the later value is at most the earlier one and an increase otherwise,
and the scaler picks the scanned minimum frequency exactly when increases
strictly outnumber decreases and the scanned maximum in every other case;
in particular [10,9,8] gives (dec,inc)=(2,0) and the maximum, [10,11,12]
gives (0,2) and the minimum, and [10,10] gives (1,0) and the maximum. -/
theorem C1_trend_classification (prices : List ℚ) (capContent : String) :
    countTrend prices =
      ((prices.zip prices.tail).countP (fun pr => decide (pr.2 ≤ pr.1)),
       (prices.zip prices.tail).countP (fun pr => decide (pr.1 < pr.2)))
  ∧ chosenFrequency prices capContent =
      (if (prices.zip prices.tail).countP (fun pr => decide (pr.2 ≤ pr.1)) <
          (prices.zip prices.tail).countP (fun pr => decide (pr.1 < pr.2))
       then (freqScan (getAvailableCPUFrequencies capContent)).1
       else (freqScan (getAvailableCPUFrequencies capContent)).2)
  ∧ countTrend [10, 9, 8] = (2, 0)
  ∧ countTrend [10, 11, 12] = (0, 2)
  ∧ countTrend [10, 10] = (1, 0)
  ∧ chosenFrequency [10, 9, 8] "800000 1600000" = 1600000
  ∧ chosenFrequency [10, 11, 12] "800000 1600000" = 800000
  ∧ chosenFrequency [10, 10] "800000 1600000" = 1600000 := by
  refine ⟨countTrend_eq_countP prices, ?_, by decide, by decide, by decide,
    by decide, by decide, by decide⟩
  rw [chosenFrequency, countTrend_eq_countP prices]

/-- C5 counterexample. The content "abc" is neither unreadable nor empty and
parses no entry, yet the derived range has min = 10000000 above max = 0, so
the range is not min <= max with both drawn from the parsed set. -/
theorem C5_counterexample :
    ("abc" : String) ≠ ""
  ∧ freqScan (getAvailableCPUFrequencies "abc") = (10000000, 0)
  ∧ ¬ (freqScan (getAvailableCPUFrequencies "abc")).1 ≤
      (freqScan (getAvailableCPUFrequencies "abc")).2 := by
  decide

/-- C5 (amended). Whenever at least one entry parses, min <= max holds; min
is drawn from the parsed set as soon as some parsed entry is at most the
sentinel 10000000, and max as soon as some parsed entry is at least 0; when
the file is unreadable or empty, or no entry parses, the range stays at the
sentinels (10000000, 0). For content "800000 1200000 1600000" the range is
(800000, 1600000). -/
theorem C5_frequency_range (capContent : String) :
    (parsedFrequencies capContent ≠ [] →
      (freqScan (getAvailableCPUFrequencies capContent)).1 ≤
        (freqScan (getAvailableCPUFrequencies capContent)).2)
  ∧ ((∃ f ∈ parsedFrequencies capContent, f ≤ 10000000) →
      (freqScan (getAvailableCPUFrequencies capContent)).1 ∈
        parsedFrequencies capContent)
  ∧ ((∃ f ∈ parsedFrequencies capContent, 0 ≤ f) →
      (freqScan (getAvailableCPUFrequencies capContent)).2 ∈
        parsedFrequencies capContent)
  ∧ (parsedFrequencies capContent = [] →
      freqScan (getAvailableCPUFrequencies capContent) = (10000000, 0))
  ∧ freqScan (getAvailableCPUFrequencies "800000 1200000 1600000") =
      (800000, 1600000) := by
  have hfold := freqScan_eq_fold (getAvailableCPUFrequencies capContent)
  have hl : (getAvailableCPUFrequencies capContent).filterMap atoi =
      parsedFrequencies capContent := rfl
  rw [hl] at hfold
  refine ⟨?_, ?_, ?_, ?_, by decide⟩
  · intro hne
    rcases List.exists_mem_of_ne_nil _ hne with ⟨x, hx⟩
    rw [hfold]
    exact le_trans (foldl_min_le_mem _ _ x hx) (foldl_max_mem_le _ _ x hx)
  · rintro ⟨f, hf, hfle⟩
    rw [hfold]
    rcases foldl_min_mem (parsedFrequencies capContent) 10000000 with h | h
    · have h1 : (parsedFrequencies capContent).foldl min 10000000 ≤ f :=
        foldl_min_le_mem _ _ f hf
      have : (parsedFrequencies capContent).foldl min 10000000 = f := by
        rw [h] at h1 ⊢
        omega
      rw [this]
      exact hf
    · exact h
  · rintro ⟨f, hf, hfle⟩
    rw [hfold]
    rcases foldl_max_mem (parsedFrequencies capContent) 0 with h | h
    · have h1 : f ≤ (parsedFrequencies capContent).foldl max 0 :=
        foldl_max_mem_le _ _ f hf
      have : (parsedFrequencies capContent).foldl max 0 = f := by
        rw [h] at h1 ⊢
        omega
      rw [this]
      exact hf
    · exact h
  · intro he
    rw [hfold, he]
    rfl

/-- C5 witness: at the concrete content "800000 1200000 1600000" the
amended statement's hypotheses hold and give min = 800000 <= max = 1600000
with both in the parsed set. -/
theorem C5_frequency_range_witness :
    (freqScan (getAvailableCPUFrequencies "800000 1200000 1600000")).1 ≤
      (freqScan (getAvailableCPUFrequencies "800000 1200000 1600000")).2
  ∧ (freqScan (getAvailableCPUFrequencies "800000 1200000 1600000")).1 ∈
      parsedFrequencies "800000 1200000 1600000"
  ∧ (freqScan (getAvailableCPUFrequencies "800000 1200000 1600000")).2 ∈
      parsedFrequencies "800000 1200000 1600000" := by
  have h := C5_frequency_range "800000 1200000 1600000"
  exact ⟨h.1 (by decide), h.2.1 ⟨800000, by decide, by decide⟩,
    h.2.2.1 ⟨1600000, by decide, by decide⟩⟩

/-- C7. On a series with fewer than two elements the comparison loop never
runs (the embedding is total, so there is no out-of-bounds access to model):
both counters stay zero and the scaler goes through the not-increasing
branch, writing the scanned maximum frequency. -/
theorem C7_short_series_safe (prices : List ℚ) (capContent : String)
    (numCPU : Nat) (writeOk : Nat → Bool) (h : prices.length < 2) :
    countTrend prices = (0, 0)
  ∧ chosenFrequency prices capContent =
      (freqScan (getAvailableCPUFrequencies capContent)).2
  ∧ ∀ a ∈ scaleCPUFrequency prices capContent numCPU writeOk,
      a.value =
        intToString (freqScan (getAvailableCPUFrequencies capContent)).2 := by
  have h0 : countTrend prices = (0, 0) := by
    match prices with
    | [] => rfl
    | [p] => rfl
    | p0 :: p1 :: r => exact absurd h (by simp)
  have hc : chosenFrequency prices capContent =
      (freqScan (getAvailableCPUFrequencies capContent)).2 := by
    rw [chosenFrequency, h0]
    simp
  refine ⟨h0, hc, ?_⟩
  intro a ha
  rw [scaleCPUFrequency] at ha
  rcases List.mem_map.mp ha with ⟨i, _, rfl⟩
  simp [hc]

/-- C7 witness: the one-element series [5] with capability content
"800000", three cores and failing writes. -/
theorem C7_short_series_safe_witness :
    countTrend [(5 : ℚ)] = (0, 0)
  ∧ chosenFrequency [(5 : ℚ)] "800000" =
      (freqScan (getAvailableCPUFrequencies "800000")).2
  ∧ ∀ a ∈ scaleCPUFrequency [(5 : ℚ)] "800000" 3 (fun _ => false),
      a.value = intToString (freqScan (getAvailableCPUFrequencies "800000")).2 :=
  C7_short_series_safe [(5 : ℚ)] "800000" 3 (fun _ => false) (by decide)

/-- C8. The scaling step attempts exactly one write per core index 0 up to
numCPU-2, in order: the i-th attempt targets core i's scaling_max_freq path
with the chosen frequency as a decimal string and records that core's own
write outcome; no attempt targets the last core's path; and the attempted
(path, value) sequence is the same whatever the earlier outcomes were. -/
theorem C8_write_fanout (prices : List ℚ) (capContent : String) (numCPU : Nat)
    (writeOk writeOk2 : Nat → Bool) :
    (scaleCPUFrequency prices capContent numCPU writeOk).length = numCPU - 1
  ∧ (∀ i, i < numCPU - 1 →
      (scaleCPUFrequency prices capContent numCPU writeOk)[i]? =
        some { path := scalingMaxFreqPathOf i
               value := intToString (chosenFrequency prices capContent)
               ok := writeOk i })
  ∧ (∀ a ∈ scaleCPUFrequency prices capContent numCPU writeOk,
      a.path ≠ scalingMaxFreqPathOf (numCPU - 1))
  ∧ (scaleCPUFrequency prices capContent numCPU writeOk).map
      (fun a => (a.path, a.value)) =
    (scaleCPUFrequency prices capContent numCPU writeOk2).map
      (fun a => (a.path, a.value)) := by
  refine ⟨by simp [scaleCPUFrequency], ?_, ?_, by simp [scaleCPUFrequency]⟩
  · intro i hi
    rw [scaleCPUFrequency]
    rw [List.getElem?_map, List.getElem?_range hi]
    rfl
  · intro a ha
    rw [scaleCPUFrequency] at ha
    rcases List.mem_map.mp ha with ⟨i, hi, rfl⟩
    intro hpath
    have := scalingMaxFreqPathOf_injective i (numCPU - 1) hpath
    rw [List.mem_range] at hi
    omega

/-- C8 witness: two cores, prices [3,1], capability "800000 1600000",
first write succeeding; the single attempt targets core 0, not core 1. -/
theorem C8_write_fanout_witness :
    (scaleCPUFrequency [(3 : ℚ), 1] "800000 1600000" 2 (fun _ => true)).length = 1
  ∧ (∀ i, i < 1 →
      (scaleCPUFrequency [(3 : ℚ), 1] "800000 1600000" 2 (fun _ => true))[i]? =
        some { path := scalingMaxFreqPathOf i
               value := intToString (chosenFrequency [(3 : ℚ), 1] "800000 1600000")
               ok := true })
  ∧ (∀ a ∈ scaleCPUFrequency [(3 : ℚ), 1] "800000 1600000" 2 (fun _ => true),
      a.path ≠ scalingMaxFreqPathOf 1)
  ∧ (scaleCPUFrequency [(3 : ℚ), 1] "800000 1600000" 2 (fun _ => true)).map
      (fun a => (a.path, a.value)) =
    (scaleCPUFrequency [(3 : ℚ), 1] "800000 1600000" 2 (fun _ => false)).map
      (fun a => (a.path, a.value)) :=
  C8_write_fanout [(3 : ℚ), 1] "800000 1600000" 2 (fun _ => true) (fun _ => false)

/-- C10. When no reported entry parses as an integer (in particular when the
capability file is unreadable or empty), the scaler still writes: the
initial max sentinel "0" on the not-increasing branch and the initial min
sentinel "10000000" on the increasing branch; nothing guards these writes. -/
theorem C10_sentinel_writes (prices : List ℚ) (capContent : String)
    (numCPU : Nat) (writeOk : Nat → Bool)
    (h : ∀ t ∈ getAvailableCPUFrequencies capContent, atoi t = none) :
    ∀ a ∈ scaleCPUFrequency prices capContent numCPU writeOk,
      a.value = if (countTrend prices).1 < (countTrend prices).2
                then "10000000" else "0" := by
  have hnil : (getAvailableCPUFrequencies capContent).filterMap atoi = [] :=
    List.filterMap_eq_nil_iff.mpr h
  have hscan : freqScan (getAvailableCPUFrequencies capContent) = (10000000, 0) := by
    rw [freqScan_eq_fold, hnil]
    rfl
  intro a ha
  rw [scaleCPUFrequency] at ha
  rcases List.mem_map.mp ha with ⟨i, _, rfl⟩
  show intToString (chosenFrequency prices capContent) = _
  rw [chosenFrequency, hscan]
  by_cases hd : (countTrend prices).1 < (countTrend prices).2
  · simp only [hd, if_true]
    decide
  · simp only [hd, if_false]
    decide

/-- C10 witness: increasing series [1,2], empty (unreadable) capability
content, two cores: the one attempted write carries the value "10000000". -/
theorem C10_sentinel_writes_witness :
    ∃ a ∈ scaleCPUFrequency [(1 : ℚ), 2] "" 2 (fun _ => true),
      a.value = if (countTrend [(1 : ℚ), 2]).1 < (countTrend [(1 : ℚ), 2]).2
                then "10000000" else "0" :=
  ⟨{ path := scalingMaxFreqPathOf 0, value := "10000000", ok := true },
    by decide,
    C10_sentinel_writes [(1 : ℚ), 2] "" 2 (fun _ => true) (by decide)
      { path := scalingMaxFreqPathOf 0, value := "10000000", ok := true }
      (by decide)⟩

/-- C2 (code bug). The instant is 2026-10-11 12:30 UTC, the zone offset the
+02:00 of Europe/Budapest then. When HOURS is absent the -3 default happens
to mean -3 nanoseconds times time.Hour, i.e. three hours back, and every
field matches the claim. But when HOURS parses — here "-3h", giving
-10800000000000 ns — getTimeRange multiplies that duration by time.Hour
again; the int64 product wraps to -430027188864024576 ns (about 13.6 years),
so the window starts on 2013-02-24 instead of the claimed now-minus-3-hours
on the same day. -/
theorem C2_hours_units_bug :
    resolveHoursInThePast (some (some (-10800000000000))) = -10800000000000
  ∧ wrap64 (-10800000000000 * nsPerHour) = -430027188864024576
  ∧ getTimeRange 1791721800000000000 (fun _ => 7200)
      (resolveHoursInThePast none) =
      { startDate := "2026-10-11", endDate := "2026-10-11",
        startHour := "11", endHour := "14" }
  ∧ getTimeRange 1791721800000000000 (fun _ => 7200)
      (resolveHoursInThePast (some (some (-10800000000000)))) =
      { startDate := "2013-02-24", endDate := "2026-10-11",
        startHour := "10", endHour := "14" }
  ∧ ("2013-02-24" : String) ≠ "2026-10-11" := by
  refine ⟨rfl, by decide, by decide, by decide, by decide⟩

/-- C3 counterexample. A two-day window whose first sub-fetch fails at the
HTTP level: although the second fetch would succeed with prices [5], the
orchestrator issues only the first call and returns the empty series — it
does not proceed on a first sub-fetch failure. -/
theorem C3_counterexample :
    getElectrictyPrices
      { startDate := "2026-10-10", endDate := "2026-10-11",
        startHour := "22", endHour := "1" }
      (fun c => if c.sd = "2026-10-10" then FetchResult.httpFail
                else FetchResult.ok [5]) =
      ([⟨"2026-10-10", "2026-10-10", "22", "24"⟩], [])
  ∧ (fun (c : FetchCall) => if c.sd = "2026-10-10" then FetchResult.httpFail
        else FetchResult.ok [5])
      ⟨"2026-10-11", "2026-10-11", "0", "1"⟩ = FetchResult.ok [5] := by
  decide

/-- C3 (amended). For a two-day window, only a decode failure of the first
sub-fetch is tolerated (the orchestrator continues into the second fetch
with an empty first-day slice); an HTTP failure of the first sub-fetch
aborts at once with an empty series and no second call; a failure of the
second sub-fetch at either level, or of the single-day fetch, also yields
the empty series. -/
theorem C3_partial_failure_policy (times : Times)
    (fetch : FetchCall → FetchResult) :
    (times.startDate ≠ times.endDate →
      (fetch ⟨times.startDate, times.startDate, times.startHour, "24"⟩ =
          FetchResult.httpFail →
        getElectrictyPrices times fetch =
          ([⟨times.startDate, times.startDate, times.startHour, "24"⟩], []))
    ∧ (fetch ⟨times.startDate, times.startDate, times.startHour, "24"⟩ =
          FetchResult.decodeFail →
        ∀ prices2,
          fetch ⟨times.endDate, times.endDate, "0", times.endHour⟩ =
            FetchResult.ok prices2 →
          getElectrictyPrices times fetch =
            ([⟨times.startDate, times.startDate, times.startHour, "24"⟩,
              ⟨times.endDate, times.endDate, "0", times.endHour⟩], prices2))
    ∧ ((fetch ⟨times.endDate, times.endDate, "0", times.endHour⟩ =
            FetchResult.httpFail ∨
        fetch ⟨times.endDate, times.endDate, "0", times.endHour⟩ =
            FetchResult.decodeFail) →
        (getElectrictyPrices times fetch).2 = []))
  ∧ (times.startDate = times.endDate →
      (fetch ⟨times.startDate, times.endDate, times.startHour, times.endHour⟩ =
          FetchResult.httpFail ∨
       fetch ⟨times.startDate, times.endDate, times.startHour, times.endHour⟩ =
          FetchResult.decodeFail) →
      getElectrictyPrices times fetch =
        ([⟨times.startDate, times.endDate, times.startHour, times.endHour⟩], [])) := by
  constructor
  · intro hne
    refine ⟨?_, ?_, ?_⟩
    · intro h1
      rw [getElectrictyPrices, if_pos hne, h1]
    · intro h1 prices2 h2
      rw [getElectrictyPrices, if_pos hne, h1]
      simp [secondLeg, h2]
    · intro h2
      rw [getElectrictyPrices, if_pos hne]
      rcases hf : fetch ⟨times.startDate, times.startDate, times.startHour, "24"⟩ with _ | _ | p1
        <;> rcases h2 with h2 | h2
        <;> simp [secondLeg, h2]
  · intro heq h
    rw [getElectrictyPrices, if_neg (not_not.mpr heq)]
    rcases h with h | h <;> rw [h]

/-- C3 witness: the amended policy at a concrete two-day window whose first
sub-fetch decode-fails and whose second succeeds with [7]. -/
theorem C3_partial_failure_policy_witness :
    getElectrictyPrices
      { startDate := "2026-10-10", endDate := "2026-10-11",
        startHour := "22", endHour := "1" }
      (fun c => if c.sd = "2026-10-10" then FetchResult.decodeFail
                else FetchResult.ok [7]) =
      ([⟨"2026-10-10", "2026-10-10", "22", "24"⟩,
        ⟨"2026-10-11", "2026-10-11", "0", "1"⟩], [7]) :=
  ((C3_partial_failure_policy
      { startDate := "2026-10-10", endDate := "2026-10-11",
        startHour := "22", endHour := "1" }
      (fun c => if c.sd = "2026-10-10" then FetchResult.decodeFail
                else FetchResult.ok [7])).1
    (by decide)).2.1 (by decide) [7] (by decide)

/-- C4. A two-day window whose two fetches both succeed issues exactly the
two calls (startDate, startDate, startHour, "24") then
(endDate, endDate, "0", endHour) and returns their concatenation with the
earlier day first; a single-day window always issues exactly the one call
(startDate, endDate, startHour, endHour). -/
theorem C4_fetch_split (times : Times) (fetch : FetchCall → FetchResult)
    (prices1 prices2 : List ℚ) :
    (times.startDate ≠ times.endDate →
      fetch ⟨times.startDate, times.startDate, times.startHour, "24"⟩ =
        FetchResult.ok prices1 →
      fetch ⟨times.endDate, times.endDate, "0", times.endHour⟩ =
        FetchResult.ok prices2 →
      getElectrictyPrices times fetch =
        ([⟨times.startDate, times.startDate, times.startHour, "24"⟩,
          ⟨times.endDate, times.endDate, "0", times.endHour⟩],
         prices1 ++ prices2))
  ∧ (times.startDate = times.endDate →
      (getElectrictyPrices times fetch).1 =
        [⟨times.startDate, times.endDate, times.startHour, times.endHour⟩]) := by
  constructor
  · intro hne h1 h2
    rw [getElectrictyPrices, if_pos hne, h1]
    simp [secondLeg, h2]
  · intro heq
    rw [getElectrictyPrices, if_neg (not_not.mpr heq)]
    rcases hf : fetch ⟨times.startDate, times.endDate, times.startHour, times.endHour⟩ with _ | _ | p
      <;> simp [hf]

/-- C4 witness: a concrete two-day window with both fetches succeeding, and
a concrete single-day window. -/
theorem C4_fetch_split_witness :
    getElectrictyPrices
      { startDate := "2026-10-10", endDate := "2026-10-11",
        startHour := "22", endHour := "1" }
      (fun c => if c.sd = "2026-10-10" then FetchResult.ok [3, 4]
                else FetchResult.ok [5])  =
      ([⟨"2026-10-10", "2026-10-10", "22", "24"⟩,
        ⟨"2026-10-11", "2026-10-11", "0", "1"⟩], [3, 4, 5])
  ∧ (getElectrictyPrices
      { startDate := "2026-10-11", endDate := "2026-10-11",
        startHour := "11", endHour := "14" }
      (fun _ => FetchResult.ok [8])).1 =
      [⟨"2026-10-11", "2026-10-11", "11", "14"⟩] :=
  ⟨(C4_fetch_split
      { startDate := "2026-10-10", endDate := "2026-10-11",
        startHour := "22", endHour := "1" }
      (fun c => if c.sd = "2026-10-10" then FetchResult.ok [3, 4]
                else FetchResult.ok [5]) [3, 4] [5]).1
      (by decide) (by decide) (by decide),
   (C4_fetch_split
      { startDate := "2026-10-11", endDate := "2026-10-11",
        startHour := "11", endHour := "14" }
      (fun _ => FetchResult.ok [8]) [] []).2 rfl⟩

/-! Round-trip facts for the decimal texts and the response decoder. -/

theorem takeWhile_append_all {α : Type} (p : α → Bool) (xs ys : List α)
    (h : xs.all p) : (xs ++ ys).takeWhile p = xs ++ ys.takeWhile p := by
  induction xs with
  | nil => simp
  | cons c t ih =>
    simp only [List.all_cons, Bool.and_eq_true] at h
    simp [List.takeWhile_cons, h.1, ih h.2]

theorem dropWhile_append_all {α : Type} (p : α → Bool) (xs ys : List α)
    (h : xs.all p) : (xs ++ ys).dropWhile p = ys.dropWhile p := by
  induction xs with
  | nil => simp
  | cons c t ih =>
    simp only [List.all_cons, Bool.and_eq_true] at h
    simp [List.dropWhile_cons, h.1, ih h.2]

theorem digitsVal_cons_zero (t : List Char) : digitsVal ('0' :: t) = digitsVal t := rfl

theorem digitsVal_replicate_zero (j : Nat) (ds : List Char) :
    digitsVal (List.replicate j '0' ++ ds) = digitsVal ds := by
  induction j with
  | zero => rfl
  | succ k ih => rw [List.replicate_succ, List.cons_append, digitsVal_cons_zero, ih]

theorem padNat_all_isDigit (w k : Nat) : (padNat w k).all Char.isDigit := by
  simp only [padNat, List.all_append, Bool.and_eq_true]
  constructor
  · simp only [List.all_eq_true]
    intro c hc
    rw [List.eq_of_mem_replicate hc]
    decide
  · exact natDigits_all_isDigit k

theorem padNat_ne_nil (w k : Nat) : padNat w k ≠ [] := by
  rw [padNat]
  intro h
  exact natDigits_ne_nil k (List.append_eq_nil.mp h).2

theorem digitsVal_padNat (w k : Nat) : digitsVal (padNat w k) = k := by
  rw [padNat, digitsVal_replicate_zero, digitsVal_natDigits]

theorem natDigits_length_le_two (k : Nat) (h : k < 100) :
    (natDigits k).length ≤ 2 := by
  rw [natDigits_eq]
  by_cases h10 : k < 10
  · simp [h10]
  · rw [if_neg h10, natDigits_eq, if_pos (by omega : k / 10 < 10)]
    simp

theorem padNat_two_length (k : Nat) (h : k < 100) : (padNat 2 k).length = 2 := by
  have h2 := natDigits_length_le_two k h
  rw [padNat, List.length_append, List.length_replicate]
  omega

theorem parseUnsignedDecimal_digits_frac (a b : Nat) (hb : b < 100) :
    parseUnsignedDecimal (natDigits a ++ '.' :: padNat 2 b) =
      some ((a : ℚ) + (b : ℚ) / 100) := by
  have ht : (natDigits a ++ '.' :: padNat 2 b).takeWhile Char.isDigit = natDigits a := by
    rw [takeWhile_append_all _ _ _ (natDigits_all_isDigit a), List.takeWhile_cons]
    simp
  have hd : (natDigits a ++ '.' :: padNat 2 b).dropWhile Char.isDigit =
      '.' :: padNat 2 b := by
    rw [dropWhile_append_all _ _ _ (natDigits_all_isDigit a), List.dropWhile_cons]
    simp
  rw [parseUnsignedDecimal, ht, hd]
  rw [if_neg (by simp [List.isEmpty_iff, natDigits_ne_nil])]
  show (if (padNat 2 b).isEmpty = true then none
    else if (padNat 2 b).all Char.isDigit = true then
      some ((digitsVal (natDigits a) : ℚ) +
        (digitsVal (padNat 2 b) : ℚ) / (10 : ℚ) ^ (padNat 2 b).length)
    else none) = _
  rw [if_neg (by simp [List.isEmpty_iff, padNat_ne_nil]),
    if_pos (padNat_all_isDigit 2 b), digitsVal_natDigits, digitsVal_padNat,
    padNat_two_length b hb]
  norm_num

theorem natAbs_centi_cast (m : Int) :
    ((m.natAbs / 100 : Nat) : ℚ) + ((m.natAbs % 100 : Nat) : ℚ) / 100 =
      ((m.natAbs : Nat) : ℚ) / 100 := by
  have h100 : ((m.natAbs / 100 : Nat) : ℚ) * 100 + ((m.natAbs % 100 : Nat) : ℚ) =
      ((m.natAbs : Nat) : ℚ) := by
    exact_mod_cast (by omega : m.natAbs / 100 * 100 + m.natAbs % 100 = m.natAbs)
  rw [← h100]
  ring

theorem parseDecimal_renderCenti (m : Int) :
    parseDecimal (renderCenti m) = some ((m : ℚ) / 100) := by
  rw [parseDecimal, renderCenti]
  show parseDecimalChars (centiChars m) = _
  by_cases h : m < 0
  · rw [centiChars, if_pos h]
    show parseDecimalChars
      ('-' :: (natDigits (m.natAbs / 100) ++ '.' :: padNat 2 (m.natAbs % 100))) = _
    rw [parseDecimalChars, if_pos rfl,
      parseUnsignedDecimal_digits_frac _ _ (by omega)]
    have habs : ((m.natAbs : Nat) : ℚ) = -(m : ℚ) := by
      rw [Int.cast_natAbs]
      exact_mod_cast abs_of_neg h
    show some (-(((m.natAbs / 100 : Nat) : ℚ) + ((m.natAbs % 100 : Nat) : ℚ) / 100)) =
      some ((m : ℚ) / 100)
    rw [natAbs_centi_cast m, habs]
    congr 1
    ring
  · rw [centiChars, if_neg h]
    show parseDecimalChars
      (natDigits (m.natAbs / 100) ++ '.' :: padNat 2 (m.natAbs % 100)) = _
    rcases he : natDigits (m.natAbs / 100) with _ | ⟨c, cs⟩
    · exact absurd he (natDigits_ne_nil _)
    · have hs := natDigits_head_not_sign _ c cs he
      rw [List.cons_append, parseDecimalChars, if_neg hs.1, if_neg hs.2,
        ← List.cons_append, ← he,
        parseUnsignedDecimal_digits_frac _ _ (by omega)]
      have habs : ((m.natAbs : Nat) : ℚ) = (m : ℚ) := by
        rw [Int.cast_natAbs]
        exact_mod_cast abs_of_nonneg (not_lt.mp h)
      rw [natAbs_centi_cast m, habs]

theorem decodeItem_renderItem (s : SynthItem) :
    decodeItem (renderItem s) = some (synthRecord s) := by
  have h1 : firstChild "Hour" (renderItem s) =
      some (Xml.elem "Hour" [Xml.text (intToString s.hour)]) := rfl
  have h2 : firstChild "Price" (renderItem s) =
      some (Xml.elem "Price" [Xml.text (renderCenti s.priceCenti)]) := rfl
  have h3 : firstChild "Volume" (renderItem s) =
      some (Xml.elem "Volume" [Xml.text (renderCenti s.volumeCenti)]) := rfl
  have h4 : firstChild "Date" (renderItem s) =
      some (Xml.elem "Date" [Xml.text s.date]) := rfl
  rw [decodeItem]
  rw [h1, h2, h3, h4]
  show (do
    let hour ← atoi (intToString s.hour)
    let price ← parseDecimal (renderCenti s.priceCenti)
    let volume ← parseDecimal (renderCenti s.volumeCenti)
    pure { date := s.date, hour := hour, price := price, volume := volume }) =
    some (synthRecord s)
  rw [atoi_intToString, parseDecimal_renderCenti, parseDecimal_renderCenti]
  rfl

theorem decodeItems_map_renderItem (items : List SynthItem) :
    decodeItems (items.map renderItem) = some (items.map synthRecord) := by
  induction items with
  | nil => rfl
  | cons s t ih =>
    rw [List.map_cons, decodeItems, decodeItem_renderItem s, ih, List.map_cons]

theorem decodeImResponse_render (items : List SynthItem) :
    decodeImResponse (renderImResponse items) = some (items.map synthRecord) := by
  have hfilter : childrenNamed "Item" (Xml.elem "Result" (items.map renderItem)) =
      items.map renderItem := by
    rw [childrenNamed]
    apply List.filter_eq_self.mpr
    intro x hx
    rcases List.mem_map.mp hx with ⟨s, _, rfl⟩
    rfl
  have h0 : decodeImResponse (renderImResponse items) =
      decodeItems (childrenNamed "Item" (Xml.elem "Result" (items.map renderItem))) := rfl
  rw [h0, hfilter, decodeItems_map_renderItem]

theorem decodeItems_fail_fast (items : List Xml) (x : Xml) (hx : x ∈ items)
    (hfail : decodeItem x = none) : decodeItems items = none := by
  induction items with
  | nil => cases hx
  | cons y t ih =>
    rw [decodeItems]
    rcases List.mem_cons.mp hx with rfl | hxt
    · rw [hfail]
    · rw [ih hxt]
      rcases decodeItem y with _ | _ <;> rfl

/-- C6. A request-construction failure, a transport failure and any status
other than exactly "200 OK" all make sendRequest report no data, and only
an exact "200 OK" response yields a body; during decoding, one record
failing typed coercion fails the whole Item-list decode, and a failed
decode makes the extractor return the error with no records, while a
successful decode returns every record's price. -/
theorem C6_fetch_error_handling (st : String) (b x : Xml) (items : List Xml) :
    sendRequest RequestOutcome.buildErr = none
  ∧ sendRequest RequestOutcome.transportErr = none
  ∧ (st ≠ "200 OK" → sendRequest (RequestOutcome.response st b) = none)
  ∧ sendRequest (RequestOutcome.response "200 OK" b) = some b
  ∧ (∀ it ∈ items, decodeItem it = none → decodeItems items = none)
  ∧ (decodeImResponse x = none → extractPricesFromGetImPriceE x = ([], true))
  ∧ (∀ rs, decodeImResponse x = some rs →
      extractPricesFromGetImPriceE x = (rs.map (fun r => r.price), false)) := by
  refine ⟨rfl, rfl, ?_, ?_, ?_, ?_, ?_⟩
  · intro hst
    rw [sendRequest, if_neg hst]
  · rw [sendRequest, if_pos rfl]
  · intro it hit hfail
    exact decodeItems_fail_fast items it hit hfail
  · intro hfail
    rw [extractPricesFromGetImPriceE, hfail]
  · intro rs hok
    rw [extractPricesFromGetImPriceE, hok]

/-- C6 witness: a "404 Not Found" status yields no data, a "200 OK" one
yields the body; an Item whose Hour text does not coerce fails the whole
two-item decode; the bad envelope extracts to no records with the error
flag. -/
theorem C6_fetch_error_handling_witness :
    sendRequest (RequestOutcome.response "404 Not Found" (Xml.text "x")) = none
  ∧ sendRequest (RequestOutcome.response "200 OK" (Xml.text "x")) =
      some (Xml.text "x")
  ∧ decodeItems
      [Xml.elem "Item" [Xml.elem "Hour" [Xml.text "oops"]],
       Xml.elem "Item" [Xml.elem "Hour" [Xml.text "7"]]] = none
  ∧ extractPricesFromGetImPriceE
      (Xml.elem "Envelope"
        [Xml.elem "Body"
          [Xml.elem "GetImPriceEResponse"
            [Xml.elem "Result"
              [Xml.elem "Item" [Xml.elem "Hour" [Xml.text "oops"]]]]]]) =
      ([], true) := by
  have h := C6_fetch_error_handling "404 Not Found" (Xml.text "x")
    (Xml.elem "Envelope"
      [Xml.elem "Body"
        [Xml.elem "GetImPriceEResponse"
          [Xml.elem "Result"
            [Xml.elem "Item" [Xml.elem "Hour" [Xml.text "oops"]]]]]])
    [Xml.elem "Item" [Xml.elem "Hour" [Xml.text "oops"]],
     Xml.elem "Item" [Xml.elem "Hour" [Xml.text "7"]]]
  refine ⟨h.2.2.1 (by decide), h.2.2.2.1, ?_, ?_⟩
  · exact h.2.2.2.2.1 (Xml.elem "Item" [Xml.elem "Hour" [Xml.text "oops"]])
      (List.mem_cons_self _ _) rfl
  · exact h.2.2.2.2.2.1 rfl

/-- C9. Decoding a schema-conformant synthetic response built from any
record list reproduces the record count and every field value exactly
(dates verbatim, integer hours and two-decimal prices and volumes without
loss); and the intraday request template carries the four range arguments
verbatim inside the fixed envelope. -/
theorem C9_roundtrip (items : List SynthItem) (sd ed sh eh : String) :
    decodeImResponse (renderImResponse items) = some (items.map synthRecord)
  ∧ (items.map synthRecord).length = items.length
  ∧ sd.data <:+: (getImPriceEPayload sd ed sh eh).data
  ∧ ed.data <:+: (getImPriceEPayload sd ed sh eh).data
  ∧ sh.data <:+: (getImPriceEPayload sd ed sh eh).data
  ∧ eh.data <:+: (getImPriceEPayload sd ed sh eh).data := by
  refine ⟨decodeImResponse_render items, List.length_map _ _, ?_, ?_, ?_, ?_⟩
  · exact ⟨imTplA.data,
      (imTplB ++ ed ++ imTplC ++ sh ++ imTplD ++ eh ++ imTplE).data,
      by simp [getImPriceEPayload, String.data_append, List.append_assoc]⟩
  · exact ⟨(imTplA ++ sd ++ imTplB).data,
      (imTplC ++ sh ++ imTplD ++ eh ++ imTplE).data,
      by simp [getImPriceEPayload, String.data_append, List.append_assoc]⟩
  · exact ⟨(imTplA ++ sd ++ imTplB ++ ed ++ imTplC).data,
      (imTplD ++ eh ++ imTplE).data,
      by simp [getImPriceEPayload, String.data_append, List.append_assoc]⟩
  · exact ⟨(imTplA ++ sd ++ imTplB ++ ed ++ imTplC ++ sh ++ imTplD).data,
      imTplE.data,
      by simp [getImPriceEPayload, String.data_append, List.append_assoc]⟩

end Epcp
